import Mathlib

/-!
Verification of the slug lifecycle engine of django-sage-slug against its
specification.  The Python sources under `sage_slug/` are shallowly embedded:
the store (entity table and `SlugSwap` ledger) is explicit state, Django
queryset operations become list operations, and the unbounded uniqueness
counter loop is embedded with a fuel argument that is proved sufficient.
-/

namespace SageSlug

/-! ### Slugifier (`django.utils.text.slugify`, `allow_unicode=True`)

The mixin calls Django's `slugify` (`mixins.py`, `__generate_new_slug_base`),
which the spec (section 4.1) treats as a pluggable normalization function:
lower-case, drop characters outside `[\w\s-]`, collapse runs of `[-\s]+` to a
single `-`, and strip leading/trailing `-`/`_`.  We embed its behaviour on
ASCII input, where NFKC normalization is the identity and `\w` is
alphanumerics plus underscore; every concrete input in this development is
ASCII. -/

def isSlugWordChar (c : Char) : Bool :=
  c.isAlphanum || c == '_'

/-- One pass of the regex substitution that rewrites every run of
whitespace-or-hyphen characters to a single hyphen.  The boolean records
whether we are currently inside such a run. -/
def collapseSeps : Bool → List Char → List Char
  | _, [] => []
  | inRun, c :: rest =>
    if c == '-' || c.isWhitespace then
      if inRun then collapseSeps true rest
      else '-' :: collapseSeps true rest
    else c :: collapseSeps false rest

def isStripChar (c : Char) : Bool :=
  c == '-' || c == '_'

/-- Python's `str.strip("-_")`: remove leading and trailing hyphens and
underscores. -/
def stripSeps (l : List Char) : List Char :=
  ((l.dropWhile isStripChar).reverse.dropWhile isStripChar).reverse

/-- `django.utils.text.slugify(value, allow_unicode=True)` on ASCII input:
lower-case, delete characters outside `[\w\s-]`, collapse `[-\s]+` runs to a
single `-`, strip `-`/`_` from both ends. -/
def slugify (s : String) : String :=
  let lowered := s.toList.map Char.toLower
  let cleaned := lowered.filter
    (fun c => isSlugWordChar c || c.isWhitespace || c == '-')
  ⟨stripSeps (collapseSeps false cleaned)⟩

/-! ### Data model

`SlugSwap` rows (`models.py`): `old_slug`, `new_slug`, a polymorphic owner
reference (`content_type` model name plus `object_id`), and a
`redirect_type`. -/

/-- Modelled from the spec: `sage_slug.helpers.enums.RedirectType` is not
among the provided sources.  Spec section 3 specifies the redirect class as
an enum {Permanent, Temporary} with default Permanent; the sources refer to
the permanent member as `Primary` (`models.py` default, middleware
comparison), so we keep that name for the permanent class. -/
inductive RedirectType where
  | Primary
  | Temporary
deriving DecidableEq, Repr

/-- One `SlugSwap` ledger row (`models.py`). -/
structure SwapRow where
  old_slug : String
  new_slug : String
  content_type : String
  object_id : Nat
  redirect_type : RedirectType
deriving DecidableEq, Repr

/-- One persisted row of a model using `SageSlugSwapMixin`: primary key,
`title` and `slug` columns. -/
structure EntityRow where
  pk : Nat
  title : String
  slug : String
deriving DecidableEq, Repr

/-- An in-memory model instance being saved.  Django primary keys are `None`
before the first insert and positive integers afterwards, so Python's
truthiness tests on `pk` are embedded as `Option` matching. -/
structure EntityInstance where
  pk : Option Nat
  title : String
  slug : String
deriving DecidableEq, Repr

/-- The persistent store: the entity table and the `SlugSwap` ledger. -/
structure Store where
  entities : List EntityRow
  swaps : List SwapRow
deriving DecidableEq, Repr

/-! ### Uniqueness probe and counter loop -/

/-- `type(self).objects.filter(slug=s).exclude(pk=self.pk).exists()`
(`mixins.py`, `__generate_unique_slug`).  With `pk=None` the `exclude`
removes no persisted row.  The field-level probe
(`fields.py`, `is_slug_exists` with `unique=True`) computes the same value. -/
def slugTaken (st : Store) (pk : Option Nat) (s : String) : Bool :=
  st.entities.any fun r =>
    r.slug == s &&
      (match pk with
       | some p => r.pk != p
       | none => true)

/-- Candidate produced by the counter loop: `f"{base}-{counter}"`. -/
def slugCand (base : String) (k : Nat) : String :=
  base ++ "-" ++ toString k

/-- The body of the `while not unique` loop of `__generate_unique_slug`
(`mixins.py`) and of the `while self.is_slug_exists(...)` loop of
`generate_unique_slug` (`fields.py`, separator `-`): check the current
candidate; while taken, move to `f"{base}-{counter}"` and increment the
counter.  The loop is unbounded in the source (spec section 9 notes this);
it is embedded with a fuel argument, and `loopFuel` below is proved large
enough that the fuel never runs out. -/
def generateLoop (taken : String → Bool) (base : String) :
    Nat → Nat → String → String
  | 0, _, cur => cur
  | fuel + 1, counter, cur =>
    if taken cur then
      generateLoop taken base fuel (counter + 1) (slugCand base counter)
    else cur

/-- Fuel sufficient for the counter loop: the store holds
`st.entities.length` slugs, and the `entities.length + 1` candidates
`base-1 … base-(n+1)` are pairwise distinct, so one of them is free. -/
def loopFuel (st : Store) : Nat :=
  st.entities.length + 2

/-- `SageSlugSwapMixin.__generate_unique_slug` applied to a base slug. -/
def mixinGenerateUniqueSlug (st : Store) (pk : Option Nat) (base : String) :
    String :=
  generateLoop (slugTaken st pk) base (loopFuel st) 1 base

/-- `SAGESlugField.generate_unique_slug` (`fields.py`) for the mixin's slug
field (`unique=True`, separator `-`): same probe, same loop shape. -/
def fieldGenerateUniqueSlug (st : Store) (pk : Option Nat) (slug : String) :
    String :=
  generateLoop (slugTaken st pk) slug (loopFuel st) 1 slug

/-- The `pre_save` receiver installed by `SAGESlugField.contribute_to_class`
(`fields.py`) as it acts on the mixin's slug field: `populate_from` is unset
and `always_update` is false, so the value is never repopulated; if the value
is truthy and the field is unique, it is passed through
`generate_unique_slug`. -/
def preSaveSignalSlug (st : Store) (pk : Option Nat) (v : String) : String :=
  if v == "" then v else fieldGenerateUniqueSlug st pk v

/-! ### Entity lifecycle hook (`SageSlugSwapMixin`, `mixins.py`) -/

/-- `type(self).objects.get(pk=pk)`: the persisted row for a primary key,
`none` standing for `DoesNotExist`. -/
def getEntity (st : Store) (p : Nat) : Option EntityRow :=
  st.entities.find? (fun r => r.pk == p)

/-- `SageSlugSwapMixin.__check_slug_changed`: false for unsaved instances
(`if not pk`), false when no row exists (`DoesNotExist`), otherwise a fresh
read of the persisted row compared against the newly generated slug. -/
def checkSlugChanged (st : Store) (pk : Option Nat) (newSlug : String) :
    Bool :=
  match pk with
  | none => false
  | some p =>
    match getEntity st p with
    | none => false
    | some oldInstance => oldInstance.slug != newSlug

/-- `ContentType.objects.get_for_model(self)` for the single embedded entity
model, rendered as the model name the middleware filters on
(`content_type__model`). -/
def entityContentType : String := "entity"

/-- `SlugSwap.objects.update_or_create(old_slug=old_slug, defaults={...})`
(`mixins.py`, `__handle_slug_swap_logic`): if a row with this `old_slug`
exists it is updated in place with the new defaults (its `redirect_type` is
not among the defaults and is kept), otherwise a fresh row is created with
the model default `redirect_type` (`models.py`: `RedirectType.Primary`). -/
def updateOrCreateSwap (swaps : List SwapRow) (old new ctype : String)
    (oid : Nat) : List SwapRow :=
  if swaps.any (fun r => r.old_slug == old) then
    swaps.map fun r =>
      if r.old_slug == old then
        { r with new_slug := new, content_type := ctype, object_id := oid }
      else r
  else
    swaps ++ [⟨old, new, ctype, oid, RedirectType.Primary⟩]

/-- `SageSlugSwapMixin.__handle_slug_swap_logic`: only acts when the instance
has a primary key. -/
def handleSlugSwapLogic (st : Store) (pk : Option Nat)
    (oldSlug newSlug : String) : Store :=
  match pk with
  | some p =>
    { st with
      swaps := updateOrCreateSwap st.swaps oldSlug newSlug entityContentType p }
  | none => st

/-- Auto-assigned primary key for an insert: one past the largest key in the
table (Django lets the database sequence pick the next id). -/
def freshPk (st : Store) : Nat :=
  (st.entities.foldl (fun m r => max m r.pk) 0) + 1

/-- The underlying `super().save(...)` write: an `UPDATE` of the existing row
when the instance has a primary key that is present, otherwise an `INSERT`
(with the given key, or a fresh auto-assigned one).  Returns the store and
the primary key of the written row. -/
def writeEntity (st : Store) (i : EntityInstance) : Store × Nat :=
  match i.pk with
  | some p =>
    if st.entities.any (fun r => r.pk == p) then
      ({ st with
         entities := st.entities.map fun r =>
           if r.pk == p then ⟨p, i.title, i.slug⟩ else r }, p)
    else
      ({ st with entities := st.entities ++ [⟨p, i.title, i.slug⟩] }, p)
  | none =>
    let p := freshPk st
    ({ st with entities := st.entities ++ [⟨p, i.title, i.slug⟩] }, p)

/-- The base slug and the mixin's resolved unique slug for an instance:
`__generate_new_slug_base` composed with `__generate_unique_slug`. -/
def newSlugOf (st : Store) (i : EntityInstance) : String :=
  mixinGenerateUniqueSlug st i.pk (slugify i.title)

/-- Result of one `save` call that may fail at the underlying write:
whether the write raised, the resulting store, and the in-memory instance. -/
structure SaveOutcome where
  raised : Bool
  store : Store
  inst : EntityInstance
deriving Repr

/-- `SageSlugSwapMixin.save`, with an explicit flag for whether the
underlying `super().save(...)` write succeeds.  In source order: generate the
unique slug, remember the in-memory `self.slug` as `old_slug`, compute
`slug_changed` by a fresh read, assign the slug (the `pre_save` receiver of
the field may adjust it), perform the main write, and only after a
successful write upsert the ledger when the slug changed.  A failed write
raises before any ledger mutation, leaving the store untouched. -/
def saveAttempt (st : Store) (i : EntityInstance) (writeSucceeds : Bool) :
    SaveOutcome :=
  let newSlug := newSlugOf st i
  let oldSlug := i.slug
  let slugChanged := checkSlugChanged st i.pk newSlug
  let finalSlug := preSaveSignalSlug st i.pk newSlug
  if writeSucceeds then
    let written := writeEntity st { i with slug := finalSlug }
    let inst1 : EntityInstance :=
      { pk := some written.2, title := i.title, slug := finalSlug }
    let st2 :=
      if slugChanged then
        handleSlugSwapLogic written.1 inst1.pk oldSlug newSlug
      else written.1
    ⟨false, st2, inst1⟩
  else
    ⟨true, st, { i with slug := finalSlug }⟩

/-- A successful `save`: store and instance after the call. -/
def save (st : Store) (i : EntityInstance) : Store × EntityInstance :=
  let o := saveAttempt st i true
  (o.store, o.inst)

/-- A sequence of entity saves, threading the store. -/
def saveAll (st : Store) (is : List EntityInstance) : Store :=
  is.foldl (fun s i => (save s i).1) st

/-! ### Redirect resolver (`OldSlugRedirectMiddleware`, `middleware/slug_swap.py`) -/

/-- Responses as the middleware distinguishes them: an ordinary response with
a status code and body, `HttpResponsePermanentRedirect`, or
`HttpResponseRedirect` (temporary). -/
inductive HttpResponse where
  | content (status : Nat) (body : String)
  | permanentRedirect (url : String)
  | temporaryRedirect (url : String)
deriving DecidableEq, Repr

def HttpResponse.statusCode : HttpResponse → Nat
  | .content s _ => s
  | .permanentRedirect _ => 301
  | .temporaryRedirect _ => 302

/-- `OldSlugRedirectMiddleware._get_new_slug`:
`SlugSwap.objects.filter(old_slug=old_slug, content_type__model=slug_type).first()`;
return its `new_slug` when a row is found, otherwise the old slug
unchanged. -/
def getNewSlug (swaps : List SwapRow) (oldSlug slugType : String) : String :=
  match swaps.find?
      (fun r => r.old_slug == oldSlug && r.content_type == slugType) with
  | some slugSwap => slugSwap.new_slug
  | none => oldSlug

/-- `OldSlugRedirectMiddleware._redirect`: scan the configured mapping keys
in order, take the value stored in `updated_kwargs` for the first key present
(the source binds it to a variable named `old_slug`, although
`updated_kwargs` holds the substituted values), query
`SlugSwap.objects.filter(old_slug=...).first()` with it, and choose the
redirect class from that row, defaulting to a temporary redirect. -/
def redirectResponse (mapping : List (String × String))
    (swaps : List SwapRow) (url : String)
    (updatedKwargs : List (String × String)) : HttpResponse :=
  let oldSlug : Option String :=
    mapping.foldl
      (fun acc kv =>
        match acc with
        | some _ => acc
        | none => updatedKwargs.lookup kv.1)
      none
  match oldSlug with
  | some v =>
    if v == "" then .temporaryRedirect url
    else
      match swaps.find? (fun r => r.old_slug == v) with
      | some slugSwap =>
        if slugSwap.redirect_type = RedirectType.Primary then
          .permanentRedirect url
        else .temporaryRedirect url
      | none => .temporaryRedirect url
  | none => .temporaryRedirect url

/-- `OldSlugRedirectMiddleware.process_response`.  Only 404 responses are
touched.  For each configured `(slug_name, slug_type)` pair whose parameter
is present and truthy in the resolver kwargs, `updated_kwargs[slug_name]` is
set to `_get_new_slug(...)` (note: also when no ledger row matched and the
value comes back unchanged).  When `updated_kwargs` is non-empty the route is
reconstructed with `reverse`; on success `_redirect` runs, and on
`NoReverseMatch` the raised `Http404` is swallowed by the outer
`except Exception` handler, so the original response is returned.  The route
reconstruction of the external URL resolver is a parameter. -/
def processResponse (mapping : List (String × String)) (swaps : List SwapRow)
    (reverse : String → List (String × String) → Option String)
    (viewName : String) (resolverKwargs : List (String × String))
    (response : HttpResponse) : HttpResponse :=
  if response.statusCode == 404 then
    let updatedKwargs :=
      mapping.foldl
        (fun acc kv =>
          match resolverKwargs.lookup kv.1 with
          | some oldSlug =>
            if oldSlug == "" then acc
            else acc ++ [(kv.1, getNewSlug swaps oldSlug kv.2)]
          | none => acc)
        []
    if updatedKwargs == [] then response
    else
      match reverse viewName updatedKwargs with
      | some newUrl => redirectResponse mapping swaps newUrl updatedKwargs
      | none => response
  else response

/-! ### Field-level uniqueness probe for arbitrary configurations
(`SAGESlugField.is_slug_exists`, `fields.py`) -/

/-- A persisted row of an arbitrary model carrying a `SAGESlugField`: primary
key, the slug column, and the other attributes as a name/value list. -/
structure FieldRow where
  pk : Nat
  slug : String
  attrs : List (String × String)
deriving DecidableEq, Repr

/-- `getattr(instance, field)` on the attribute list. -/
def getAttrValue (attrs : List (String × String)) (field : String) : String :=
  (attrs.lookup field).getD ""

/-- `model._default_manager.all()` followed by
`queryset.exclude(pk=instance.pk)` when the instance has a primary key. -/
def queryScope (rows : List FieldRow) (pk : Option Nat) : List FieldRow :=
  match pk with
  | some p => rows.filter (fun r => !(r.pk == p))
  | none => rows

/-- `SAGESlugField.is_slug_exists`: with `unique` set the probe filters on
the slug value alone; otherwise, with a non-empty `unique_with`, it filters
on the slug value and equality of each listed sibling field; with neither it
reports no collision. -/
def isSlugExists (unique : Bool) (uniqueWith : List String)
    (rows : List FieldRow) (pk : Option Nat)
    (instAttrs : List (String × String)) (slug : String) : Bool :=
  let queryset := queryScope rows pk
  if unique then
    queryset.any (fun r => r.slug == slug)
  else if !uniqueWith.isEmpty then
    queryset.any fun r =>
      r.slug == slug &&
        uniqueWith.all
          (fun f => getAttrValue r.attrs f == getAttrValue instAttrs f)
  else false

/-! ### Injectivity of the decimal counter rendering

The counter loop appends `toString counter`; distinct counters yield distinct
candidate slugs, which underlies the termination bound of the loop.  We prove
`Nat.repr` injective by exhibiting a left inverse (a decimal parser). -/

def digitVal (c : Char) : Nat :=
  c.toNat - 48

/-- Append the decimal digits of `n` to the accumulator value `acc`. -/
def pushNum (acc n : Nat) : Nat :=
  if _h : n < 10 then acc * 10 + n
  else pushNum acc (n / 10) * 10 + n % 10
termination_by n
decreasing_by exact Nat.div_lt_self (by omega) (by omega)

theorem digitVal_digitChar (d : Nat) (h : d < 10) :
    digitVal (Nat.digitChar d) = d := by
  interval_cases d <;> decide

theorem pushNum_zero (n : Nat) : pushNum 0 n = n := by
  induction n using Nat.strong_induction_on with
  | _ n ih =>
    rw [pushNum]
    split
    · omega
    · rw [ih (n / 10) (Nat.div_lt_self (by omega) (by omega))]
      omega

theorem toDigitsCore_foldl (n : Nat) :
    ∀ (fuel : Nat) (ds : List Char) (acc : Nat), n < fuel →
      (Nat.toDigitsCore 10 fuel n ds).foldl
          (fun a c => a * 10 + digitVal c) acc
        = ds.foldl (fun a c => a * 10 + digitVal c) (pushNum acc n) := by
  induction n using Nat.strong_induction_on with
  | _ n ih =>
    intro fuel ds acc hfuel
    match fuel with
    | 0 => omega
    | f + 1 =>
      show (if n / 10 = 0 then Nat.digitChar (n % 10) :: ds
            else Nat.toDigitsCore 10 f (n / 10)
              (Nat.digitChar (n % 10) :: ds)).foldl
            (fun a c => a * 10 + digitVal c) acc = _
      by_cases hdiv : n / 10 = 0
      · have hlt : n < 10 := by omega
        simp only [hdiv, if_pos, List.foldl_cons,
          digitVal_digitChar (n % 10) (by omega)]
        conv_rhs => rw [pushNum]
        rw [dif_pos hlt]
        have : n % 10 = n := Nat.mod_eq_of_lt hlt
        rw [this]
      · have hn10 : n / 10 < n := Nat.div_lt_self (by omega) (by omega)
        simp only [hdiv, if_neg, if_false]
        rw [ih (n / 10) hn10 f (Nat.digitChar (n % 10) :: ds) acc (by omega)]
        simp only [List.foldl_cons, digitVal_digitChar (n % 10) (by omega)]
        conv_rhs => rw [pushNum]
        rw [dif_neg (by omega)]

theorem repr_leftInverse (n : Nat) :
    (Nat.repr n).data.foldl (fun a c => a * 10 + digitVal c) 0 = n := by
  show (Nat.toDigitsCore 10 (n + 1) n []).foldl
      (fun a c => a * 10 + digitVal c) 0 = n
  rw [toDigitsCore_foldl n (n + 1) [] 0 (by omega)]
  exact pushNum_zero n

theorem repr_injective {m n : Nat} (h : Nat.repr m = Nat.repr n) : m = n := by
  have hm := repr_leftInverse m
  rw [h, repr_leftInverse n] at hm
  omega

theorem slugCand_injective (base : String) {j k : Nat}
    (h : slugCand base j = slugCand base k) : j = k := by
  unfold slugCand at h
  have hdata := congrArg String.data h
  rw [String.data_append, String.data_append] at hdata
  have hjk : (toString j : String).data = (toString k : String).data :=
    List.append_cancel_left hdata
  exact repr_injective (String.ext hjk)

/-! ### The counter loop terminates within its fuel and yields the first
free candidate -/

theorem slugTaken_mem_slugs {st : Store} {pk : Option Nat} {s : String}
    (h : slugTaken st pk s = true) : s ∈ st.entities.map EntityRow.slug := by
  obtain ⟨r, hr, hp⟩ := List.any_eq_true.mp h
  have : r.slug = s := by
    have := Bool.and_elim_left hp
    exact eq_of_beq this
  exact this ▸ List.mem_map_of_mem EntityRow.slug hr

/-- Pigeonhole: among the candidates `base-1 … base-(n+1)` — pairwise
distinct strings — at least one is not a slug of any of the `n` persisted
entities. -/
theorem exists_free_cand (st : Store) (pk : Option Nat) (base : String) :
    ∃ j, 1 ≤ j ∧ j ≤ st.entities.length + 1 ∧
      slugTaken st pk (slugCand base j) = false := by
  by_contra hcon
  push_neg at hcon
  have htaken : ∀ j, 1 ≤ j → j ≤ st.entities.length + 1 →
      slugTaken st pk (slugCand base j) = true := by
    intro j h1 h2
    have := hcon j h1 h2
    revert this
    cases slugTaken st pk (slugCand base j) <;> simp
  set n := st.entities.length with hn
  have hsub : (Finset.Icc 1 (n + 1)).image (slugCand base) ⊆
      (st.entities.map EntityRow.slug).toFinset := by
    intro s hs
    obtain ⟨j, hj, rfl⟩ := Finset.mem_image.mp hs
    have hj' := Finset.mem_Icc.mp hj
    exact List.mem_toFinset.mpr
      (slugTaken_mem_slugs (htaken j hj'.1 hj'.2))
  have hcard1 : ((Finset.Icc 1 (n + 1)).image (slugCand base)).card = n + 1 := by
    rw [Finset.card_image_of_injOn (fun a _ b _ h => slugCand_injective base h)]
    rw [Nat.card_Icc]
    omega
  have hcard2 : (st.entities.map EntityRow.slug).toFinset.card ≤ n := by
    calc (st.entities.map EntityRow.slug).toFinset.card
        ≤ (st.entities.map EntityRow.slug).length := List.toFinset_card_le _
      _ = n := by rw [List.length_map]
  have := Finset.card_le_card hsub
  omega

/-- After the first iteration the loop state is `(fuel, i + 1, base-i)`;
with enough fuel to reach a free candidate, the loop returns the first free
candidate at or after index `i`. -/
theorem generateLoop_spec (taken : String → Bool) (base : String) :
    ∀ (fuel i : Nat), 1 ≤ i →
      (∃ j, i ≤ j ∧ j < i + fuel ∧ taken (slugCand base j) = false) →
      ∃ k, i ≤ k ∧ taken (slugCand base k) = false ∧
        (∀ j, i ≤ j → j < k → taken (slugCand base j) = true) ∧
        generateLoop taken base fuel (i + 1) (slugCand base i) =
          slugCand base k := by
  intro fuel
  induction fuel with
  | zero =>
    intro i _ hex
    obtain ⟨j, h1, h2, _⟩ := hex
    omega
  | succ f ihf =>
    intro i hi hex
    cases htk : taken (slugCand base i) with
    | false =>
      refine ⟨i, le_refl i, htk, by omega, ?_⟩
      show (if taken (slugCand base i) then _ else slugCand base i) = _
      rw [htk]
      simp
    | true =>
      have hstep : generateLoop taken base (f + 1) (i + 1) (slugCand base i)
          = generateLoop taken base f (i + 2) (slugCand base (i + 1)) := by
        show (if taken (slugCand base i) then
          generateLoop taken base f (i + 1 + 1) (slugCand base (i + 1))
          else slugCand base i) = _
        rw [htk]
        simp
      obtain ⟨j, hj1, hj2, hj3⟩ := hex
      have hji : j ≠ i := by
        intro hEq
        rw [hEq, htk] at hj3
        exact Bool.true_eq_false.mp hj3
      obtain ⟨k, hk1, hk2, hk3, hk4⟩ :=
        ihf (i + 1) (by omega) ⟨j, by omega, by omega, hj3⟩
      refine ⟨k, by omega, hk2, ?_, ?_⟩
      · intro j' hj'1 hj'2
        rcases Nat.eq_or_lt_of_le hj'1 with hEq | hLt
        · rw [← hEq]
          exact htk
        · exact hk3 j' hLt hj'2
      · rw [hstep, hk4]

/-- Characterization of `__generate_unique_slug`: the base slug when it is
free, otherwise the first free suffixed candidate. -/
theorem mixinGenerate_spec (st : Store) (pk : Option Nat) (base : String) :
    (slugTaken st pk base = false →
      mixinGenerateUniqueSlug st pk base = base) ∧
    (slugTaken st pk base = true →
      ∃ k, 1 ≤ k ∧ slugTaken st pk (slugCand base k) = false ∧
        (∀ j, 1 ≤ j → j < k → slugTaken st pk (slugCand base j) = true) ∧
        mixinGenerateUniqueSlug st pk base = slugCand base k) := by
  constructor
  · intro hfree
    show (if slugTaken st pk base then _ else base) = base
    rw [hfree]
    simp
  · intro htaken
    have hstep : mixinGenerateUniqueSlug st pk base
        = generateLoop (slugTaken st pk) base (st.entities.length + 1) 2
            (slugCand base 1) := by
      show (if slugTaken st pk base then
        generateLoop (slugTaken st pk) base (st.entities.length + 1) 2
          (slugCand base 1) else base) = _
      rw [htaken]
      simp
    obtain ⟨j, hj1, hj2, hj3⟩ := exists_free_cand st pk base
    obtain ⟨k, hk1, hk2, hk3, hk4⟩ :=
      generateLoop_spec (slugTaken st pk) base (st.entities.length + 1) 1
        (le_refl 1) ⟨j, hj1, by omega, hj3⟩
    exact ⟨k, hk1, hk2, hk3, by rw [hstep, hk4]⟩

/-- The resolved slug never collides with another entity's slug. -/
theorem mixinGenerate_free (st : Store) (pk : Option Nat) (base : String) :
    slugTaken st pk (mixinGenerateUniqueSlug st pk base) = false := by
  cases hb : slugTaken st pk base with
  | false => rw [(mixinGenerate_spec st pk base).1 hb]; exact hb
  | true =>
    obtain ⟨k, _, hk2, _, hk4⟩ := (mixinGenerate_spec st pk base).2 hb
    rw [hk4]
    exact hk2

/-- With pointwise-equal collision probes the loop resolves to the same
slug, whatever the fuel bounds of the two stores. -/
theorem mixinGenerate_congr (st1 st2 : Store) (pk1 pk2 : Option Nat)
    (base : String)
    (h : ∀ x, slugTaken st1 pk1 x = slugTaken st2 pk2 x) :
    mixinGenerateUniqueSlug st1 pk1 base =
      mixinGenerateUniqueSlug st2 pk2 base := by
  cases hb : slugTaken st2 pk2 base with
  | false =>
    rw [(mixinGenerate_spec st1 pk1 base).1 ((h base).trans hb),
      (mixinGenerate_spec st2 pk2 base).1 hb]
  | true =>
    obtain ⟨k1, hk11, hk12, hk13, hk14⟩ :=
      (mixinGenerate_spec st1 pk1 base).2 ((h base).trans hb)
    obtain ⟨k2, hk21, hk22, hk23, hk24⟩ := (mixinGenerate_spec st2 pk2 base).2 hb
    have hkk : k1 = k2 := by
      rcases Nat.lt_trichotomy k1 k2 with hlt | hEq | hgt
      · have := hk23 k1 hk11 hlt
        rw [h (slugCand base k1)] at hk12
        rw [this] at hk12
        exact absurd hk12 (by simp)
      · exact hEq
      · have := hk13 k2 hk21 hgt
        rw [h (slugCand base k2)] at this
        rw [hk22] at this
        exact absurd this (by simp)
    rw [hk14, hk24, hkk]

/-- The field-level `pre_save` pass leaves the mixin's resolved slug
unchanged: the slug is already collision-free. -/
theorem preSaveSignal_mixin (st : Store) (pk : Option Nat) (base : String) :
    preSaveSignalSlug st pk (mixinGenerateUniqueSlug st pk base) =
      mixinGenerateUniqueSlug st pk base := by
  unfold preSaveSignalSlug
  split
  · rfl
  · show generateLoop (slugTaken st pk) _ (loopFuel st) 1 _ = _
    unfold loopFuel
    show (if slugTaken st pk (mixinGenerateUniqueSlug st pk base) then _
      else mixinGenerateUniqueSlug st pk base) = _
    rw [mixinGenerate_free st pk base]
    simp

/-! ### Shape of the store after the underlying write -/

/-- The primary key under which `super().save(...)` writes the row. -/
def savedPk (st : Store) (i : EntityInstance) : Nat :=
  match i.pk with
  | some p => p
  | none => freshPk st

theorem foldl_max_init_le (l : List EntityRow) :
    ∀ acc : Nat, acc ≤ l.foldl (fun m r => max m r.pk) acc := by
  induction l with
  | nil => intro acc; exact le_refl acc
  | cons a l ih =>
    intro acc
    exact le_trans (le_max_left acc a.pk) (ih (max acc a.pk))

theorem pk_le_foldl_max (l : List EntityRow) :
    ∀ (acc : Nat) (r : EntityRow), r ∈ l →
      r.pk ≤ l.foldl (fun m r => max m r.pk) acc := by
  induction l with
  | nil => intro _ _ h; cases h
  | cons a l ih =>
    intro acc r hr
    simp only [List.foldl_cons]
    cases hr with
    | head =>
      exact le_trans (le_max_right acc a.pk) (foldl_max_init_le l _)
    | tail _ hmem => exact ih (max acc a.pk) r hmem

theorem freshPk_not_pk (st : Store) :
    ∀ r ∈ st.entities, r.pk ≠ freshPk st := by
  intro r hr hEq
  have := pk_le_foldl_max st.entities 0 r hr
  unfold freshPk at hEq
  omega

theorem writeEntity_snd (st : Store) (i : EntityInstance) :
    (writeEntity st i).2 = savedPk st i := by
  unfold writeEntity savedPk
  cases i.pk with
  | some p => by_cases h : (st.entities.any fun r => r.pk == p) = true <;> simp [h]
  | none => rfl

theorem writeEntity_swaps (st : Store) (i : EntityInstance) :
    (writeEntity st i).1.swaps = st.swaps := by
  unfold writeEntity
  cases i.pk with
  | some p => by_cases h : (st.entities.any fun r => r.pk == p) = true <;> simp [h]
  | none => rfl

theorem any_congr_list {α : Type} {p q : α → Bool} :
    ∀ l : List α, (∀ a ∈ l, p a = q a) → l.any p = l.any q := by
  intro l h
  induction l with
  | nil => rfl
  | cons a l ih =>
    simp only [List.any_cons]
    rw [h a (List.mem_cons_self a l), ih (fun a ha => h a (List.mem_cons_of_mem _ ha))]

/-- Excluding the saved row's own key, the collision probe sees the same
slugs after the write as the probe the save itself used. -/
theorem slugTaken_write (st : Store) (i : EntityInstance) (s : String) :
    slugTaken (writeEntity st i).1 (some (savedPk st i)) s =
      slugTaken st i.pk s := by
  unfold slugTaken writeEntity savedPk
  cases hpk : i.pk with
  | some p =>
    by_cases hany : st.entities.any (fun r => r.pk == p) = true
    · simp only [hany, if_pos, List.any_map]
      apply any_congr_list
      intro r _
      by_cases hrp : r.pk == p
      · have : r.pk = p := eq_of_beq hrp
        simp [Function.comp, hrp, this]
      · simp [Function.comp, hrp]
    · simp only [Bool.not_eq_true] at hany
      simp only [hany, if_neg, Bool.false_eq_true, not_false_eq_true,
        List.any_append, List.any_cons, List.any_nil]
      simp
  | none =>
    simp only [List.any_append, List.any_cons, List.any_nil]
    have hfresh : ∀ r ∈ st.entities, r.pk ≠ freshPk st := freshPk_not_pk st
    have : st.entities.any
        (fun r => r.slug == s && (r.pk != freshPk st))
        = st.entities.any (fun r => r.slug == s && true) := by
      apply any_congr_list
      intro r hr
      have : (r.pk != freshPk st) = true := by
        simp [bne_iff_ne]
        exact hfresh r hr
      rw [this]
    rw [this]
    simp

theorem find?_map_write (l : List EntityRow) (p : Nat) (t s : String)
    (hany : l.any (fun r => r.pk == p) = true) :
    (l.map fun r => if r.pk == p then (⟨p, t, s⟩ : EntityRow) else r).find?
        (fun r => r.pk == p) = some ⟨p, t, s⟩ := by
  induction l with
  | nil => cases hany
  | cons a l ih =>
    cases ha : a.pk == p with
    | true =>
      rw [List.map_cons, List.find?_cons]
      have hg : (if a.pk == p then (⟨p, t, s⟩ : EntityRow) else a)
          = ⟨p, t, s⟩ := by simp [ha]
      rw [hg]
      simp
    | false =>
      rw [List.any_cons, ha, Bool.false_or] at hany
      rw [List.map_cons, List.find?_cons]
      have hg : (if a.pk == p then (⟨p, t, s⟩ : EntityRow) else a) = a := by
        simp [ha]
      rw [hg, ha]
      exact ih hany

/-- After the write, the fresh read of the saved key returns the row just
written. -/
theorem getEntity_write (st : Store) (i : EntityInstance) :
    getEntity (writeEntity st i).1 (savedPk st i) =
      some ⟨savedPk st i, i.title, i.slug⟩ := by
  unfold getEntity writeEntity savedPk
  cases hpk : i.pk with
  | some p =>
    by_cases hany : st.entities.any (fun r => r.pk == p) = true
    · simp only [hany, if_pos]
      exact find?_map_write st.entities p i.title i.slug hany
    · simp only [Bool.not_eq_true] at hany
      simp only [hany, Bool.false_eq_true, not_false_eq_true, if_neg,
        List.find?_append]
      have hnone : st.entities.find? (fun r => r.pk == p) = none := by
        rw [List.find?_eq_none]
        intro r hr
        have := List.any_eq_false.mp hany r hr
        simpa using this
      rw [hnone]
      simp
  | none =>
    have hnone : st.entities.find? (fun r => r.pk == freshPk st) = none := by
      rw [List.find?_eq_none]
      intro r hr
      simpa using freshPk_not_pk st r hr
    simp only [List.find?_append, hnone]
    simp

/-! ### Shape of a full `save` -/

theorem saveAttempt_true (st : Store) (i : EntityInstance) :
    saveAttempt st i true =
      ⟨false,
       (if checkSlugChanged st i.pk (newSlugOf st i) then
          handleSlugSwapLogic
            (writeEntity st ⟨i.pk, i.title, newSlugOf st i⟩).1
            (some (savedPk st i)) i.slug (newSlugOf st i)
        else (writeEntity st ⟨i.pk, i.title, newSlugOf st i⟩).1),
       ⟨some (savedPk st i), i.title, newSlugOf st i⟩⟩ := by
  unfold saveAttempt
  have hsig : preSaveSignalSlug st i.pk (newSlugOf st i) = newSlugOf st i :=
    preSaveSignal_mixin st i.pk (slugify i.title)
  simp only [hsig, if_pos]
  have hpk : (writeEntity st ⟨i.pk, i.title, newSlugOf st i⟩).2 =
      savedPk st i :=
    writeEntity_snd st ⟨i.pk, i.title, newSlugOf st i⟩
  rw [hpk]

theorem save_def (st : Store) (i : EntityInstance) :
    save st i =
      ((if checkSlugChanged st i.pk (newSlugOf st i) then
          handleSlugSwapLogic
            (writeEntity st ⟨i.pk, i.title, newSlugOf st i⟩).1
            (some (savedPk st i)) i.slug (newSlugOf st i)
        else (writeEntity st ⟨i.pk, i.title, newSlugOf st i⟩).1),
       ⟨some (savedPk st i), i.title, newSlugOf st i⟩) := by
  unfold save
  rw [saveAttempt_true]

theorem save_inst (st : Store) (i : EntityInstance) :
    (save st i).2 = ⟨some (savedPk st i), i.title, newSlugOf st i⟩ := by
  rw [save_def]

theorem save_swaps (st : Store) (i : EntityInstance) :
    (save st i).1.swaps =
      if checkSlugChanged st i.pk (newSlugOf st i) then
        updateOrCreateSwap st.swaps i.slug (newSlugOf st i) entityContentType
          (savedPk st i)
      else st.swaps := by
  rw [save_def]
  split
  · simp only [handleSlugSwapLogic]
    rw [writeEntity_swaps]
  · rw [writeEntity_swaps]

theorem save_entities (st : Store) (i : EntityInstance) :
    (save st i).1.entities =
      (writeEntity st ⟨i.pk, i.title, newSlugOf st i⟩).1.entities := by
  rw [save_def]
  split
  · simp only [handleSlugSwapLogic]
  · rfl

theorem slugTaken_congr_entities (st1 st2 : Store) (pk : Option Nat)
    (x : String) (h : st1.entities = st2.entities) :
    slugTaken st1 pk x = slugTaken st2 pk x := by
  unfold slugTaken
  rw [h]

/-! ### Shape of the ledger after `update_or_create` -/

theorem map_old_update (l : List SwapRow) (old new ct : String) (oid : Nat) :
    ((l.map fun r =>
        if r.old_slug == old then
          { r with new_slug := new, content_type := ct, object_id := oid }
        else r).map SwapRow.old_slug) = l.map SwapRow.old_slug := by
  induction l with
  | nil => rfl
  | cons a l ih =>
    by_cases ha : a.old_slug == old
    · simp only [List.map_cons, ha, if_pos, ih]
    · simp only [List.map_cons, if_neg ha, ih]

theorem find?_map_update (l : List SwapRow) (old new ct : String) (oid : Nat) :
    ((l.map fun r =>
        if r.old_slug == old then
          { r with new_slug := new, content_type := ct, object_id := oid }
        else r).find? (fun r => r.old_slug == old)) =
      (l.find? (fun r => r.old_slug == old)).map
        (fun w =>
          { w with new_slug := new, content_type := ct, object_id := oid })
      := by
  induction l with
  | nil => rfl
  | cons a l ih =>
    cases ha : a.old_slug == old with
    | true =>
      rw [List.map_cons, if_pos ha, List.find?_cons, List.find?_cons]
      have h2 : (({ a with new_slug := new, content_type := ct, object_id := oid } : SwapRow).old_slug == old) = true := ha
      rw [h2]
      rfl
    | false =>
      have hneg : ¬ ((a.old_slug == old) = true) := by
        rw [ha]
        simp
      rw [List.map_cons, if_neg hneg, List.find?_cons, List.find?_cons, ha]
      exact ih

theorem any_eq_false_of_not_any {α : Type} {p : α → Bool} {l : List α}
    (h : ¬ l.any p = true) : ∀ x ∈ l, ¬ p x = true := by
  intro x hx
  exact List.any_eq_false.mp (Bool.not_eq_true _ ▸ eq_false_of_ne_true h) x hx

theorem find?_updateOrCreate (swaps : List SwapRow) (old new ct : String)
    (oid : Nat) :
    (updateOrCreateSwap swaps old new ct oid).find?
        (fun r => r.old_slug == old) =
      some (match swaps.find? (fun r => r.old_slug == old) with
            | some w =>
              { w with new_slug := new, content_type := ct, object_id := oid }
            | none => ⟨old, new, ct, oid, RedirectType.Primary⟩) := by
  unfold updateOrCreateSwap
  by_cases hany : swaps.any (fun r => r.old_slug == old) = true
  · rw [if_pos hany, find?_map_update]
    cases hf : swaps.find? (fun r => r.old_slug == old) with
    | none =>
      obtain ⟨x, hx, hpx⟩ := List.any_eq_true.mp hany
      exact absurd hpx (List.find?_eq_none.mp hf x hx)
    | some w => rfl
  · rw [if_neg hany, List.find?_append]
    have hnone : swaps.find? (fun r => r.old_slug == old) = none :=
      List.find?_eq_none.mpr (any_eq_false_of_not_any hany)
    rw [hnone]
    simp

theorem nodup_updateOrCreate (swaps : List SwapRow) (old new ct : String)
    (oid : Nat) (h : (swaps.map SwapRow.old_slug).Nodup) :
    ((updateOrCreateSwap swaps old new ct oid).map SwapRow.old_slug).Nodup := by
  unfold updateOrCreateSwap
  by_cases hany : swaps.any (fun r => r.old_slug == old) = true
  · rw [if_pos hany, map_old_update]
    exact h
  · rw [if_neg hany, List.map_append]
    rw [List.nodup_append]
    refine ⟨h, List.nodup_singleton old, ?_⟩
    intro a ha hb
    have hmem : a = old := by
      simp only [List.map_cons, List.map_nil, List.mem_singleton] at hb
      exact hb
    obtain ⟨r, hr, hrs⟩ := List.mem_map.mp ha
    have := any_eq_false_of_not_any hany r hr
    rw [hrs, hmem] at this
    simp at this

theorem nodup_after_save (st : Store) (i : EntityInstance)
    (h : (st.swaps.map SwapRow.old_slug).Nodup) :
    (((save st i).1.swaps).map SwapRow.old_slug).Nodup := by
  rw [save_swaps]
  split
  · exact nodup_updateOrCreate st.swaps i.slug (newSlugOf st i)
      entityContentType (savedPk st i) h
  · exact h

theorem saveAll_nodup :
    ∀ (is : List EntityInstance) (st : Store),
      (st.swaps.map SwapRow.old_slug).Nodup →
      (((saveAll st is).swaps).map SwapRow.old_slug).Nodup := by
  intro is
  induction is with
  | nil => intro st h; exact h
  | cons i is ih => intro st h; exact ih (save st i).1 (nodup_after_save st i h)

/-! ### Claims about the entity lifecycle hook -/

/-- Claim C5: for every non-empty base slug and store state, uniqueness
resolution returns the base slug itself when no other entity (excluding the
entity's own id) holds it; otherwise it returns `base-k` for the first
(smallest, scanned from 1) positive integer `k` whose candidate collides with
no other entity; the field-level resolver computes the same value. -/
theorem C5_uniqueness_resolution (st : Store) (pk : Option Nat)
    (base : String) (_hbase : base ≠ "") :
    (slugTaken st pk base = false →
      mixinGenerateUniqueSlug st pk base = base) ∧
    (slugTaken st pk base = true →
      ∃ k, 1 ≤ k ∧ slugTaken st pk (slugCand base k) = false ∧
        (∀ j, 1 ≤ j → j < k → slugTaken st pk (slugCand base j) = true) ∧
        mixinGenerateUniqueSlug st pk base = slugCand base k) ∧
    fieldGenerateUniqueSlug st pk base = mixinGenerateUniqueSlug st pk base :=
  ⟨(mixinGenerate_spec st pk base).1, (mixinGenerate_spec st pk base).2, rfl⟩

/-- Witness for C5 at a concrete store: another entity already holds
`hello`, so the second entity under the same title resolves to `hello-1`. -/
theorem C5_witness :
    ("hello" : String) ≠ "" ∧
    ((slugTaken ⟨[⟨1, "Hello", "hello"⟩], []⟩ none "hello" = false →
        mixinGenerateUniqueSlug ⟨[⟨1, "Hello", "hello"⟩], []⟩ none "hello"
          = "hello") ∧
     (slugTaken ⟨[⟨1, "Hello", "hello"⟩], []⟩ none "hello" = true →
        ∃ k, 1 ≤ k ∧
          slugTaken ⟨[⟨1, "Hello", "hello"⟩], []⟩ none (slugCand "hello" k)
            = false ∧
          (∀ j, 1 ≤ j → j < k →
            slugTaken ⟨[⟨1, "Hello", "hello"⟩], []⟩ none (slugCand "hello" j)
              = true) ∧
          mixinGenerateUniqueSlug ⟨[⟨1, "Hello", "hello"⟩], []⟩ none "hello"
            = slugCand "hello" k) ∧
     fieldGenerateUniqueSlug ⟨[⟨1, "Hello", "hello"⟩], []⟩ none "hello"
       = mixinGenerateUniqueSlug ⟨[⟨1, "Hello", "hello"⟩], []⟩ none "hello") :=
  ⟨by decide,
   C5_uniqueness_resolution ⟨[⟨1, "Hello", "hello"⟩], []⟩ none "hello"
     (by decide)⟩

/-- Claim C6: when the newly derived slug equals the slug persisted for the
entity's id, or when there is no prior persisted row (insert), the save
leaves the `SlugSwap` ledger unchanged. -/
theorem C6_no_change_no_ledger_write (st : Store) (i : EntityInstance)
    (h : ∀ p, i.pk = some p →
      ∀ r, getEntity st p = some r → r.slug = newSlugOf st i) :
    (save st i).1.swaps = st.swaps := by
  rw [save_swaps]
  have hch : checkSlugChanged st i.pk (newSlugOf st i) = false := by
    cases hp : i.pk with
    | none => simp [checkSlugChanged, hp]
    | some p =>
      cases hg : getEntity st p with
      | none => simp [checkSlugChanged, hp, hg]
      | some r =>
        have hr := h p hp r hg
        simp [checkSlugChanged, hp, hg, hr]
  rw [hch]
  simp

/-- Witness for C6: changing the title from `Hello World` to `Hello World!`
leaves the slugified form `hello-world` unchanged, and the save writes no
ledger row. -/
theorem C6_witness :
    slugify "Hello World!" = "hello-world" ∧
    (save ⟨[⟨1, "Hello World", "hello-world"⟩], []⟩
        ⟨some 1, "Hello World!", "hello-world"⟩).1.swaps = [] :=
  ⟨by decide,
   C6_no_change_no_ledger_write ⟨[⟨1, "Hello World", "hello-world"⟩], []⟩
     ⟨some 1, "Hello World!", "hello-world"⟩
     (by
       intro p hp r hr
       injection hp with hp1
       subst hp1
       have hg : getEntity ⟨[⟨1, "Hello World", "hello-world"⟩], []⟩ 1
           = some ⟨1, "Hello World", "hello-world"⟩ := by decide
       rw [hg] at hr
       injection hr with hr1
       subst hr1
       decide)⟩

/-- Counterexample to claim C3 as stated: the ledger row is keyed on the
in-memory `self.slug` captured at entry to `save`, not on the slug read
fresh from the store.  With an in-memory slug `stale` differing from the
persisted `old-name`, the written row carries `old_slug = "stale"`. -/
theorem C3_counterexample :
    ((save ⟨[⟨1, "New Name", "old-name"⟩], []⟩
        ⟨some 1, "New Name", "stale"⟩).1.swaps.map SwapRow.old_slug)
      = ["stale"] ∧
    (getEntity ⟨[⟨1, "New Name", "old-name"⟩], []⟩ 1).map EntityRow.slug
      = some "old-name" ∧
    ("stale" : String) ≠ "old-name" := by decide

/-- Claim C3 (amended): for every save of a persisted entity whose resolved
slug differs from the freshly read persisted slug, the ledger row written is
keyed on `old_slug` equal to the instance's in-memory slug at entry to
`save` (which equals the persisted slug whenever the in-memory instance
reflects the store), with `new_slug` the resolved slug, the owner reference
the saved entity, and the redirect class left at its existing or default
value. -/
theorem C3_amended_ledger_row (st : Store) (i : EntityInstance) (p : Nat)
    (r : EntityRow) (h1 : i.pk = some p) (h2 : getEntity st p = some r)
    (h3 : r.slug ≠ newSlugOf st i) :
    ∃ w, (save st i).1.swaps.find? (fun x => x.old_slug == i.slug) = some w ∧
      w.old_slug = i.slug ∧ w.new_slug = newSlugOf st i ∧
      w.content_type = entityContentType ∧ w.object_id = p ∧
      w.redirect_type =
        (match st.swaps.find? (fun x => x.old_slug == i.slug) with
         | some prev => prev.redirect_type
         | none => RedirectType.Primary) := by
  have hch : checkSlugChanged st i.pk (newSlugOf st i) = true := by
    simp [checkSlugChanged, h1, h2, bne_iff_ne]
    exact h3
  have hpk : savedPk st i = p := by
    unfold savedPk
    rw [h1]
  have hsw : (save st i).1.swaps =
      updateOrCreateSwap st.swaps i.slug (newSlugOf st i)
        entityContentType p := by
    rw [save_swaps, hch, hpk]
    simp
  simp only [hsw, find?_updateOrCreate]
  cases hf : st.swaps.find? (fun x => x.old_slug == i.slug) with
  | none =>
    simp only [hf]
    exact ⟨_, rfl, rfl, rfl, rfl, rfl, rfl⟩
  | some prev =>
    simp only [hf]
    refine ⟨_, rfl, ?_, rfl, rfl, rfl, rfl⟩
    have hbeq := List.find?_some hf
    exact eq_of_beq hbeq

/-- Witness for the amended C3: renaming `Old Name` to `New Name` upserts
the row `old-name → new-name` owned by entity 1 with the default
(permanent) class. -/
theorem C3_witness :
    (⟨some 1, "New Name", "old-name"⟩ : EntityInstance).pk = some 1 ∧
    getEntity ⟨[⟨1, "Old Name", "old-name"⟩], []⟩ 1
      = some ⟨1, "Old Name", "old-name"⟩ ∧
    (⟨1, "Old Name", "old-name"⟩ : EntityRow).slug ≠
      newSlugOf ⟨[⟨1, "Old Name", "old-name"⟩], []⟩
        ⟨some 1, "New Name", "old-name"⟩ ∧
    ∃ w, (save ⟨[⟨1, "Old Name", "old-name"⟩], []⟩
        ⟨some 1, "New Name", "old-name"⟩).1.swaps.find?
          (fun x => x.old_slug == "old-name") = some w ∧
      w.old_slug = "old-name" ∧
      w.new_slug = newSlugOf ⟨[⟨1, "Old Name", "old-name"⟩], []⟩
        ⟨some 1, "New Name", "old-name"⟩ ∧
      w.content_type = entityContentType ∧ w.object_id = 1 ∧
      w.redirect_type =
        (match (⟨[⟨1, "Old Name", "old-name"⟩], []⟩ : Store).swaps.find?
            (fun x => x.old_slug == "old-name") with
         | some prev => prev.redirect_type
         | none => RedirectType.Primary) :=
  ⟨rfl, by decide, by decide,
   C3_amended_ledger_row ⟨[⟨1, "Old Name", "old-name"⟩], []⟩
     ⟨some 1, "New Name", "old-name"⟩ 1 ⟨1, "Old Name", "old-name"⟩
     rfl (by decide) (by decide)⟩

/-- Claim C4: across any sequence of saves the ledger keeps at most one row
per distinct `old_slug` (the `old_slug` column values stay pairwise
distinct), and an upsert hitting an existing `old_slug` overwrites that
row's `new_slug` in place instead of adding a row. -/
theorem C4_ledger_upsert_invariant (st : Store) (is : List EntityInstance)
    (h : (st.swaps.map SwapRow.old_slug).Nodup) :
    (((saveAll st is).swaps).map SwapRow.old_slug).Nodup ∧
    ∀ (swaps : List SwapRow) (old new ct : String) (oid : Nat),
      swaps.any (fun x => x.old_slug == old) = true →
        (updateOrCreateSwap swaps old new ct oid).length = swaps.length ∧
        (updateOrCreateSwap swaps old new ct oid).map SwapRow.old_slug
          = swaps.map SwapRow.old_slug ∧
        (updateOrCreateSwap swaps old new ct oid).find?
            (fun x => x.old_slug == old) =
          (swaps.find? (fun x => x.old_slug == old)).map
            (fun w =>
              { w with new_slug := new, content_type := ct,
                       object_id := oid }) := by
  refine ⟨saveAll_nodup is st h, ?_⟩
  intro swaps old new ct oid hmem
  refine ⟨?_, ?_, ?_⟩
  · unfold updateOrCreateSwap
    rw [if_pos hmem, List.length_map]
  · unfold updateOrCreateSwap
    rw [if_pos hmem]
    exact map_old_update swaps old new ct oid
  · unfold updateOrCreateSwap
    rw [if_pos hmem]
    exact find?_map_update swaps old new ct oid

/-- Witness for C4: the spec's title cycle A → B → A over three saves leaves
a ledger with pairwise distinct `old_slug` values. -/
theorem C4_witness :
    ((⟨[], []⟩ : Store).swaps.map SwapRow.old_slug).Nodup ∧
    (((saveAll ⟨[], []⟩
        [⟨none, "A", ""⟩, ⟨some 1, "B", "a"⟩,
         ⟨some 1, "A", "b"⟩]).swaps).map SwapRow.old_slug).Nodup :=
  ⟨by decide,
   (C4_ledger_upsert_invariant ⟨[], []⟩
     [⟨none, "A", ""⟩, ⟨some 1, "B", "a"⟩, ⟨some 1, "A", "b"⟩]
     (by decide)).1⟩

/-- Claim C7: re-saving an entity with an unchanged title yields the same
slug (the own id is excluded from the collision probe, so the entity does
not self-collide) and writes no new ledger row. -/
theorem C7_resave_idempotent (st : Store) (i : EntityInstance) :
    (save (save st i).1 (save st i).2).2.slug = (save st i).2.slug ∧
    (save (save st i).1 (save st i).2).1.swaps = (save st i).1.swaps := by
  have hinst : (save st i).2
      = ⟨some (savedPk st i), i.title, newSlugOf st i⟩ := save_inst st i
  have hTaken : ∀ x, slugTaken (save st i).1 (some (savedPk st i)) x
      = slugTaken st i.pk x := by
    intro x
    have h1 : slugTaken (save st i).1 (some (savedPk st i)) x
        = slugTaken (writeEntity st ⟨i.pk, i.title, newSlugOf st i⟩).1
            (some (savedPk st i)) x :=
      slugTaken_congr_entities _ _ _ _ (save_entities st i)
    rw [h1]
    exact slugTaken_write st ⟨i.pk, i.title, newSlugOf st i⟩ x
  have hnew2 : newSlugOf (save st i).1 (save st i).2 = newSlugOf st i := by
    unfold newSlugOf
    rw [hinst]
    exact mixinGenerate_congr _ _ _ _ _ hTaken
  have hget2 : getEntity (save st i).1 (savedPk st i)
      = some ⟨savedPk st i, i.title, newSlugOf st i⟩ := by
    unfold getEntity
    rw [save_entities st i]
    exact getEntity_write st ⟨i.pk, i.title, newSlugOf st i⟩
  have hch2 : checkSlugChanged (save st i).1 ((save st i).2.pk)
      (newSlugOf (save st i).1 (save st i).2) = false := by
    rw [hnew2, hinst]
    simp [checkSlugChanged, hget2]
  constructor
  · calc (save (save st i).1 (save st i).2).2.slug
        = newSlugOf (save st i).1 (save st i).2 := by
          rw [save_inst]
      _ = newSlugOf st i := hnew2
      _ = (save st i).2.slug := by rw [hinst]
  · rw [save_swaps (save st i).1 (save st i).2, hch2]
    simp

/-- Claim C8: when the underlying persistence write fails, the save raises
before any ledger mutation, so the store — in particular the `SlugSwap`
ledger — is exactly as before; the ledger upsert can only run on the
successful branch. -/
theorem C8_failed_write_no_ledger (st : Store) (i : EntityInstance) :
    (saveAttempt st i false).raised = true ∧
    (saveAttempt st i false).store = st ∧
    (saveAttempt st i false).store.swaps = st.swaps ∧
    (saveAttempt st i true).raised = false :=
  ⟨rfl, rfl, rfl, rfl⟩

/-- Counterexample to claim C9 as stated: a non-empty but fully
unslugifiable title (all punctuation) slugifies to the empty string, and the
successful save persists an empty slug. -/
theorem C9_counterexample :
    (save ⟨[], []⟩ ⟨none, "!!!", ""⟩).2.slug = "" ∧
    ("!!!" : String) ≠ "" := by decide

/-- Claim C9 (amended): whenever the title's slugified base is non-empty,
the slug after any successful save is non-empty (the base, or the base plus
a dash and a counter). -/
theorem C9_amended_nonempty_slug (st : Store) (i : EntityInstance)
    (h : slugify i.title ≠ "") : (save st i).2.slug ≠ "" := by
  rw [save_inst]
  show newSlugOf st i ≠ ""
  unfold newSlugOf
  cases hb : slugTaken st i.pk (slugify i.title) with
  | false =>
    rw [(mixinGenerate_spec st i.pk (slugify i.title)).1 hb]
    exact h
  | true =>
    obtain ⟨k, _, _, _, hk4⟩ :=
      (mixinGenerate_spec st i.pk (slugify i.title)).2 hb
    rw [hk4]
    unfold slugCand
    intro hEq
    have hlen := congrArg String.length hEq
    rw [String.length_append, String.length_append] at hlen
    have hdash : ("-" : String).length = 1 := rfl
    have hemp : ("" : String).length = 0 := rfl
    omega

/-- Witness for the amended C9. -/
theorem C9_witness :
    slugify "Hello" ≠ "" ∧
    (save ⟨[], []⟩ ⟨none, "Hello", ""⟩).2.slug ≠ "" :=
  ⟨by decide,
   C9_amended_nonempty_slug ⟨[], []⟩ ⟨none, "Hello", ""⟩ (by decide)⟩

/-! ### Claims about the field-level probe and the redirect resolver -/

/-- Claim C10: with both `unique=True` and a non-empty `unique_with`, the
existence probe filters on the slug value only — global mode takes
precedence and the sibling-field constraints (and the instance's sibling
values) are never consulted. -/
theorem C10_global_precedence (uniqueWith : List String)
    (rows : List FieldRow) (pk : Option Nat)
    (instAttrs : List (String × String)) (slug : String)
    (_h : uniqueWith ≠ []) :
    isSlugExists true uniqueWith rows pk instAttrs slug
        = (queryScope rows pk).any (fun r => r.slug == slug) ∧
    ∀ attrs2, isSlugExists true uniqueWith rows pk attrs2 slug
        = isSlugExists true uniqueWith rows pk instAttrs slug :=
  ⟨rfl, fun _ => rfl⟩

/-- Witness for C10: an existing row differing in the `unique_with` sibling
field but sharing the slug still registers as a collision. -/
theorem C10_witness :
    (["pub_date"] : List String) ≠ [] ∧
    isSlugExists true ["pub_date"] [⟨1, "hello", [("pub_date", "2024")]⟩]
        none [("pub_date", "2025")] "hello"
      = (queryScope [⟨1, "hello", [("pub_date", "2024")]⟩] none).any
          (fun r => r.slug == "hello") ∧
    isSlugExists true ["pub_date"] [⟨1, "hello", [("pub_date", "2024")]⟩]
        none [("pub_date", "2025")] "hello" = true :=
  ⟨by decide,
   (C10_global_precedence ["pub_date"] [⟨1, "hello", [("pub_date", "2024")]⟩]
     none [("pub_date", "2025")] "hello" (by decide)).1,
   by decide⟩

/-- A URL resolver for the claims about the middleware: the route
`post-detail` reconstructs exactly for the given kwargs. -/
def postDetailReverse (target : List (String × String)) (url : String) :
    String → List (String × String) → Option String :=
  fun viewName kwargs =>
    if viewName == "post-detail" && kwargs == target then some url else none

/-- Claim C1, evaluated at the canonical scenario of spec section 8.5: the
ledger holds `old_slug = "old-name" → new_slug = "new-name"` with the
permanent redirect class, the parameter `old-name` is substituted, and route
reconstruction succeeds — yet the middleware answers with a TEMPORARY
redirect, because `_redirect` queries the ledger with the substituted NEW
value (`updated_kwargs[slug_name]`, bound to a variable named `old_slug`)
and finds no row keyed on `"new-name"`. -/
theorem C1_code_bug :
    processResponse [("post_slug", "post")]
        [⟨"old-name", "new-name", "post", 1, RedirectType.Primary⟩]
        (postDetailReverse [("post_slug", "new-name")] "/posts/new-name/")
        "post-detail" [("post_slug", "old-name")]
        (HttpResponse.content 404 "not found")
      = HttpResponse.temporaryRedirect "/posts/new-name/" ∧
    HttpResponse.temporaryRedirect "/posts/new-name/"
      ≠ HttpResponse.permanentRedirect "/posts/new-name/" := by decide

/-- Claim C2, evaluated at a 404 whose configured parameter has no ledger
row: `_get_new_slug` returns the value unchanged, but `process_response`
still records it in `updated_kwargs`, reconstructs the same URL and issues a
temporary redirect instead of passing the original not-found response
through. -/
theorem C2_code_bug :
    processResponse [("post_slug", "post")] []
        (postDetailReverse [("post_slug", "missing")] "/posts/missing/")
        "post-detail" [("post_slug", "missing")]
        (HttpResponse.content 404 "not found")
      = HttpResponse.temporaryRedirect "/posts/missing/" ∧
    HttpResponse.temporaryRedirect "/posts/missing/"
      ≠ HttpResponse.content 404 "not found" := by decide

end SageSlug
